import Mathlib

/-!
# Verification of the `git-pr` branch-identity model

A shallow embedding of the Rust sources of `git-pr`:

* `src/branch_name.rs` — `BranchName`, its infallible `FromStr`, and the
  `looks_like_pr` query (the regex `/[a-f\d]+$`).
* `src/local_branch.rs` — `LocalBranch` and its whitespace-token line parse.
* `src/list_of.rs` — the generic `ListOf<T>` line-record collection.
* `src/lib.rs` — `extract_pr_names`, `extract_deletable_branches`, the `Git`
  client and its `GitError` plumbing.
* `src/execute.rs` — the `Execute` trait implementation for
  `process::Command` (`capture_nothing`, `capture_stdout`).
* `src/bin/git-pr-abandon.rs` — the deletion loop and exit policy of `main`.

Rust strings are modelled as Lean `String` / `List Char` (Unicode scalar
values, exactly as Rust `char`).  Process execution is abstracted by passing
the outcome of the spawn (an `Except` of an I/O error, or the exit status
plus captured output) as an explicit argument; everything the code does
around that outcome is embedded faithfully.
-/

/-! ## Character classes

The Rust `regex` crate's `\d` is the Unicode decimal-digit class `\p{Nd}`
(Unicode 15.0, as bundled with the `regex` crate); `str::trim_*` and
`str::split_whitespace` use the Unicode `White_Space` property.  Both tables
are reproduced below.
-/

/-- Unicode general category `Nd` (decimal digit), the meaning of `\d` in the
Rust `regex` crate (Unicode 15.0 `DerivedGeneralCategory.txt`). -/
def isUnicodeNd (c : Char) : Bool :=
  let n := c.toNat
  (0x30 ≤ n && n ≤ 0x39) ||          -- ASCII 0-9
  (0x660 ≤ n && n ≤ 0x669) ||        -- Arabic-Indic
  (0x6F0 ≤ n && n ≤ 0x6F9) ||        -- Extended Arabic-Indic
  (0x7C0 ≤ n && n ≤ 0x7C9) ||        -- NKo
  (0x966 ≤ n && n ≤ 0x96F) ||        -- Devanagari
  (0x9E6 ≤ n && n ≤ 0x9EF) ||        -- Bengali
  (0xA66 ≤ n && n ≤ 0xA6F) ||        -- Gurmukhi
  (0xAE6 ≤ n && n ≤ 0xAEF) ||        -- Gujarati
  (0xB66 ≤ n && n ≤ 0xB6F) ||        -- Oriya
  (0xBE6 ≤ n && n ≤ 0xBEF) ||        -- Tamil
  (0xC66 ≤ n && n ≤ 0xC6F) ||        -- Telugu
  (0xCE6 ≤ n && n ≤ 0xCEF) ||        -- Kannada
  (0xD66 ≤ n && n ≤ 0xD6F) ||        -- Malayalam
  (0xDE6 ≤ n && n ≤ 0xDEF) ||        -- Sinhala Lith
  (0xE50 ≤ n && n ≤ 0xE59) ||        -- Thai
  (0xED0 ≤ n && n ≤ 0xED9) ||        -- Lao
  (0xF20 ≤ n && n ≤ 0xF29) ||        -- Tibetan
  (0x1040 ≤ n && n ≤ 0x1049) ||      -- Myanmar
  (0x1090 ≤ n && n ≤ 0x1099) ||      -- Myanmar Shan
  (0x17E0 ≤ n && n ≤ 0x17E9) ||      -- Khmer
  (0x1810 ≤ n && n ≤ 0x1819) ||      -- Mongolian
  (0x1946 ≤ n && n ≤ 0x194F) ||      -- Limbu
  (0x19D0 ≤ n && n ≤ 0x19D9) ||      -- New Tai Lue
  (0x1A80 ≤ n && n ≤ 0x1A89) ||      -- Tai Tham Hora
  (0x1A90 ≤ n && n ≤ 0x1A99) ||      -- Tai Tham Tham
  (0x1B50 ≤ n && n ≤ 0x1B59) ||      -- Balinese
  (0x1BB0 ≤ n && n ≤ 0x1BB9) ||      -- Sundanese
  (0x1C40 ≤ n && n ≤ 0x1C49) ||      -- Lepcha
  (0x1C50 ≤ n && n ≤ 0x1C59) ||      -- Ol Chiki
  (0xA620 ≤ n && n ≤ 0xA629) ||      -- Vai
  (0xA8D0 ≤ n && n ≤ 0xA8D9) ||      -- Saurashtra
  (0xA900 ≤ n && n ≤ 0xA909) ||      -- Kayah Li
  (0xA9D0 ≤ n && n ≤ 0xA9D9) ||      -- Javanese
  (0xA9F0 ≤ n && n ≤ 0xA9F9) ||      -- Myanmar Tai Laing
  (0xAA50 ≤ n && n ≤ 0xAA59) ||      -- Cham
  (0xABF0 ≤ n && n ≤ 0xABF9) ||      -- Meetei Mayek
  (0xFF10 ≤ n && n ≤ 0xFF19) ||      -- Fullwidth
  (0x104A0 ≤ n && n ≤ 0x104A9) ||    -- Osmanya
  (0x10D30 ≤ n && n ≤ 0x10D39) ||    -- Hanifi Rohingya
  (0x11066 ≤ n && n ≤ 0x1106F) ||    -- Brahmi
  (0x110F0 ≤ n && n ≤ 0x110F9) ||    -- Sora Sompeng
  (0x11136 ≤ n && n ≤ 0x1113F) ||    -- Chakma
  (0x111D0 ≤ n && n ≤ 0x111D9) ||    -- Sharada
  (0x112F0 ≤ n && n ≤ 0x112F9) ||    -- Khudawadi
  (0x11450 ≤ n && n ≤ 0x11459) ||    -- Newa
  (0x114D0 ≤ n && n ≤ 0x114D9) ||    -- Tirhuta
  (0x11650 ≤ n && n ≤ 0x11659) ||    -- Modi
  (0x116C0 ≤ n && n ≤ 0x116C9) ||    -- Takri
  (0x11730 ≤ n && n ≤ 0x11739) ||    -- Ahom
  (0x118E0 ≤ n && n ≤ 0x118E9) ||    -- Warang Citi
  (0x11950 ≤ n && n ≤ 0x11959) ||    -- Dives Akuru
  (0x11C50 ≤ n && n ≤ 0x11C59) ||    -- Bhaiksuki
  (0x11D50 ≤ n && n ≤ 0x11D59) ||    -- Masaram Gondi
  (0x11DA0 ≤ n && n ≤ 0x11DA9) ||    -- Gunjala Gondi
  (0x11F50 ≤ n && n ≤ 0x11F59) ||    -- Kawi
  (0x16A60 ≤ n && n ≤ 0x16A69) ||    -- Mro
  (0x16AC0 ≤ n && n ≤ 0x16AC9) ||    -- Tangsa
  (0x16B50 ≤ n && n ≤ 0x16B59) ||    -- Pahawh Hmong
  (0x1D7CE ≤ n && n ≤ 0x1D7FF) ||    -- Mathematical digits
  (0x1E140 ≤ n && n ≤ 0x1E149) ||    -- Nyiakeng Puachue Hmong
  (0x1E2F0 ≤ n && n ≤ 0x1E2F9) ||    -- Wancho
  (0x1E4F0 ≤ n && n ≤ 0x1E4F9) ||    -- Nag Mundari
  (0x1E950 ≤ n && n ≤ 0x1E959) ||    -- Adlam
  (0x1FBF0 ≤ n && n ≤ 0x1FBF9)       -- Segmented digits

/-- ASCII lowercase hex letter `a`–`f`, the `[a-f]` part of the regex
`[a-f\d]`. -/
def isLowerHexLetter (c : Char) : Bool :=
  0x61 ≤ c.toNat && c.toNat ≤ 0x66

/-- ASCII decimal digit `0`–`9`. -/
def isAsciiDigit (c : Char) : Bool :=
  0x30 ≤ c.toNat && c.toNat ≤ 0x39

/-- The character class `[a-f\d]` of the regexes in `branch_name.rs` and
`lib.rs` (Rust `regex` crate, Unicode mode on by default). -/
def isRegexHexDigit (c : Char) : Bool :=
  isLowerHexLetter c || isUnicodeNd c

/-- The character class `[0-9a-f]` named by the specification ("consists only
of characters `0-9a-f` (case-sensitive, lowercase only)"). -/
def isClaimHexChar (c : Char) : Bool :=
  isAsciiDigit c || isLowerHexLetter c

/-- The Unicode `White_Space` property: Rust `char::is_whitespace`, used by
`str::trim_start`, `str::trim_end` and `str::split_whitespace`. -/
def isRustWhitespace (c : Char) : Bool :=
  let n := c.toNat
  (0x9 ≤ n && n ≤ 0xD) || n == 0x20 || n == 0x85 || n == 0xA0 ||
  n == 0x1680 || (0x2000 ≤ n && n ≤ 0x200A) || n == 0x2028 ||
  n == 0x2029 || n == 0x202F || n == 0x205F || n == 0x3000

/-! ## Line splitting (Rust `str::lines`) -/

/-- Split a character list at every `'\n'`, keeping empty pieces
(the pieces of `s.split('\n')`). -/
def splitNLAux : List Char → List Char → List (List Char)
  | [], acc => [acc.reverse]
  | c :: rest, acc =>
    if c = '\n' then acc.reverse :: splitNLAux rest []
    else splitNLAux rest (c :: acc)

/-- Strip one trailing `'\r'`, as Rust `str::lines` does to each line. -/
def stripTrailingCR (l : List Char) : List Char :=
  if l.getLast? = some '\r' then l.dropLast else l

/-- Rust `str::lines`: split on `'\n'`, drop the final piece when it is empty
(i.e. when the text ends with a newline, or is empty), and strip one trailing
`'\r'` from each line. -/
def rustLines (s : String) : List String :=
  let parts := splitNLAux s.data []
  let parts := if parts.getLast? = some [] then parts.dropLast else parts
  parts.map (fun l => String.mk (stripTrailingCR l))

/-! ## Whitespace trimming and tokenizing -/

/-- Rust `str::trim_start` on a character list. -/
def trimStartL (l : List Char) : List Char :=
  l.dropWhile isRustWhitespace

/-- Rust `str::trim_end` on a character list. -/
def trimEndL (l : List Char) : List Char :=
  (l.reverse.dropWhile isRustWhitespace).reverse

/-- Rust `str::trim_start`. -/
def rustTrimStart (s : String) : String :=
  String.mk (trimStartL s.data)

/-- Rust `str::trim_end`. -/
def rustTrimEnd (s : String) : String :=
  String.mk (trimEndL s.data)

/-- Worker for `splitWhitespace`: `acc` holds the current token reversed. -/
def splitWhitespaceAux : List Char → List Char → List (List Char)
  | [], acc => if acc = [] then [] else [acc.reverse]
  | c :: rest, acc =>
    if isRustWhitespace c then
      if acc = [] then splitWhitespaceAux rest []
      else acc.reverse :: splitWhitespaceAux rest []
    else splitWhitespaceAux rest (c :: acc)

/-- Rust `str::split_whitespace`: maximal runs of non-whitespace characters,
with no empty tokens. -/
def splitWhitespace (l : List Char) : List (List Char) :=
  splitWhitespaceAux l []

/-! ## `BranchName` (`src/branch_name.rs`) -/

/-- A filesystem-like name for a branch (`pub struct BranchName`). -/
structure BranchName where
  value : String
deriving Repr, DecidableEq

/-- The `is_match` of the regex `/[a-f\d]+$`: true iff some `'/'` is followed
by a non-empty run of `[a-f\d]` characters reaching the end of the string.
Since `[a-f\d]` excludes `'/'`, such a match exists iff the maximal
`[a-f\d]` suffix is non-empty and is immediately preceded by `'/'`, which is
how it is computed here (scan the reversed list). -/
def endsWithHexMatch (l : List Char) : Bool :=
  let r := l.reverse
  let h := r.takeWhile isRegexHexDigit
  decide (h ≠ []) && decide ((r.drop h.length).head? = some '/')

/-- `BranchName::looks_like_pr`: `Regex::new(r"/[a-f\d]+$").is_match(&self.value)`. -/
def BranchName.looks_like_pr (b : BranchName) : Bool :=
  endsWithHexMatch b.value.data

/-- `impl FromStr for BranchName` with `type Err = Infallible` (`Empty`):
always `Ok`. -/
def BranchName.from_str (s : String) : Except Empty BranchName :=
  Except.ok { value := s }

/-- The final `/`-separated segment of `l`: the run of non-`'/'` characters
at the end (the last piece of `l.split('/')`; empty when `l` ends in `'/'`,
and all of `l` when `l` has no `'/'`). -/
def lastSegment (l : List Char) : List Char :=
  (l.reverse.takeWhile (fun c => decide (c ≠ '/'))).reverse

/-- The condition stated by the specification for `looks_like_pr`: the string
contains a `'/'` (a name with no `/` never matches) and its final
`/`-separated segment is non-empty and consists only of `0-9a-f`. -/
def prFinalSegmentLowerHex (s : String) : Bool :=
  decide ('/' ∈ s.data) && decide (lastSegment s.data ≠ []) &&
    (lastSegment s.data).all isClaimHexChar

/-- Like `prFinalSegmentLowerHex` but with the character class the code
actually uses: `[a-f\d]` with Unicode `\d`. -/
def prFinalSegmentRegexHex (s : String) : Bool :=
  decide ('/' ∈ s.data) && decide (lastSegment s.data ≠ []) &&
    (lastSegment s.data).all isRegexHexDigit

/-! ## `LocalBranch` (`src/local_branch.rs`) -/

/-- `pub enum ParseError { MissingName }`. -/
inductive ParseError where
  | MissingName
deriving Repr, DecidableEq

/-- `pub struct LocalBranch { name: BranchName, is_head: bool }`. -/
structure LocalBranch where
  name : BranchName
  is_head : Bool
deriving Repr, DecidableEq

/-- `LocalBranch::new`: parse the name (infallible) and record the flag. -/
def LocalBranch.new (is_head : Bool) (name : String) : LocalBranch :=
  { name := { value := name }, is_head := is_head }

/-- `LocalBranch::looks_like_pr` delegates to the embedded `BranchName`. -/
def LocalBranch.looks_like_pr (lb : LocalBranch) : Bool :=
  lb.name.looks_like_pr

/-- `impl FromStr for LocalBranch`: tokenize on whitespace; a first token of
`"*"` marks the head branch whose name is the second token; otherwise the
first token is the name; no (or no further) token is `MissingName`. -/
def LocalBranch.from_str (line : String) : Except ParseError LocalBranch :=
  match splitWhitespace line.data with
  | [] => Except.error ParseError.MissingName
  | first :: rest =>
    if first = ['*'] then
      match rest with
      | [] => Except.error ParseError.MissingName
      | name :: _ => Except.ok (LocalBranch.new true (String.mk name))
    else
      Except.ok (LocalBranch.new false (String.mk first))

/-! ## `ListOf<T>` (`src/list_of.rs`) -/

/-- `pub struct ListOf<T: FromStr> { storage: Vec<T> }`.  The per-line parse
is passed explicitly (in Rust it is the `FromStr` instance of `T`; `.ok()`
turns its `Result` into an `Option`). -/
structure ListOf (T : Type) where
  storage : List T

/-- The body of `ListOf::from_str`: parse each line, keep the successes,
reverse, and store (`lines().filter_map(|l| l.parse().ok()).rev().collect()`). -/
def ListOf.build {T : Type} (parse : String → Option T) (s : String) : ListOf T :=
  { storage := ((rustLines s).filterMap parse).reverse }

/-- `impl FromStr for ListOf<T>` with `type Err = Infallible`. -/
def ListOf.from_str {T : Type} (parse : String → Option T) (s : String) :
    Except Empty (ListOf T) :=
  Except.ok (ListOf.build parse s)

/-- `Iterator::next` for `ListOf<T>`: `self.storage.pop()` removes and
returns the last stored element. -/
def ListOf.next {T : Type} (l : ListOf T) : Option T × ListOf T :=
  (l.storage.getLast?, { storage := l.storage.dropLast })

/-- Repeatedly call `next` (with enough fuel) and collect the yielded
elements in order: the observable iteration sequence of a `ListOf`. -/
def ListOf.drainAux {T : Type} : Nat → ListOf T → List T
  | 0, _ => []
  | n + 1, l =>
    match l.next with
    | (none, _) => []
    | (some t, rest) => t :: ListOf.drainAux n rest

/-- The full iteration sequence of a `ListOf`. -/
def ListOf.drain {T : Type} (l : ListOf T) : List T :=
  ListOf.drainAux l.storage.length l

/-! ## Branch extraction algorithms (`src/lib.rs`) -/

/-- The literal `remotes/origin/` of the prefix regex. -/
def remoteRefLit : List Char := "remotes/origin/".data

/-- The `is_match` of the regex `^ *\** remotes/origin/`.  The pattern is a
run of spaces, then a run of `'*'`, then one mandatory space, then the
literal.  A backtracking analysis makes the check deterministic: after the
maximal leading space run, either a `'*'` follows — then the maximal star run
must be followed by `" remotes/origin/"` — or the last space of the leading
run serves as the mandatory space, which requires at least one leading space
with the literal right after the spaces. -/
def beginsWithRemoteRef (l : List Char) : Bool :=
  let t := l.dropWhile (fun c => decide (c = ' '))
  if t.head? = some '*' then
    List.isPrefixOf (' ' :: remoteRefLit) (t.dropWhile (fun c => decide (c = '*')))
  else
    decide (l.head? = some ' ') && List.isPrefixOf remoteRefLit t

/-- `begins_with_remote_ref.replace_all(line, "")`: the regex is anchored at
the start, so there is at most one match — the full
spaces/stars/space/literal prefix — and replacing it with `""` drops it. -/
def stripRemoteRef (l : List Char) : List Char :=
  let t := l.dropWhile (fun c => decide (c = ' '))
  if t.head? = some '*' then
    let u := t.dropWhile (fun c => decide (c = '*'))
    if List.isPrefixOf (' ' :: remoteRefLit) u then u.drop (remoteRefLit.length + 1)
    else l
  else
    if decide (l.head? = some ' ') && List.isPrefixOf remoteRefLit t then
      t.drop remoteRefLit.length
    else l

/-- `ends_with_hex.replace_all(line, "")`: the regex `/[a-f\d]+$` has at most
one match — the final `'/'` together with the non-empty all-`[a-f\d]` suffix
it introduces — and replacing it with `""` drops that suffix. -/
def stripHexSuffix (l : List Char) : List Char :=
  let r := l.reverse
  let h := r.takeWhile isRegexHexDigit
  if decide (h ≠ []) && decide ((r.drop h.length).head? = some '/') then
    (r.drop (h.length + 1)).reverse
  else l

/-- `pub fn extract_pr_names(branches: &str) -> Vec<String>`: keep the lines
matching both regexes, then strip the remote-reference prefix and the hex
suffix from each. -/
def extract_pr_names (branches : String) : List String :=
  let pr_branches := (rustLines branches).filter
    (fun b => beginsWithRemoteRef b.data && endsWithHexMatch b.data)
  pr_branches.map (fun b => String.mk (stripHexSuffix (stripRemoteRef b.data)))

/-- `pub fn extract_deletable_branches(branches: &str) -> Vec<String>`:
drop lines starting with `'*'`, trim both ends of each remaining line, drop
the lines equal to `"trunk"`. -/
def extract_deletable_branches (branches : String) : List String :=
  ((((rustLines branches).filter
        (fun b => decide (b.data.head? ≠ some '*'))).map
      rustTrimStart).map
    rustTrimEnd).filter (fun b => decide (b ≠ "trunk"))

/-! ## Command executor (`src/execute.rs`) and Git client (`src/lib.rs`)

Process spawning is outside the embedding; each operation takes the outcome
of its spawn as an explicit argument: either the `io::Error` raised while
launching or waiting (`Except.error`), or the observed exit status together
with the captured standard output.  What the code does with that outcome is
embedded exactly.
-/

/-- Abstract stand-in for `std::io::Error` (only its identity matters). -/
structure IoErr where
  id : Nat
deriving Repr, DecidableEq

/-- `std::process::ExitStatus`, for a normally exited process: its exit
code.  `ExitStatus::success()` is `code == 0`. -/
structure ExitStatus where
  code : Int
deriving Repr, DecidableEq

/-- `ExitStatus::success()`. -/
def ExitStatus.success (st : ExitStatus) : Bool :=
  decide (st.code = 0)

/-- `std::process::Output`, as used by the code: exit status and captured
standard output (already decoded, standing for `from_utf8_lossy`). -/
structure Output where
  status : ExitStatus
  stdout : String
deriving Repr, DecidableEq

/-- `pub enum ExecutionError { Io(io::Error), Exit(ExitStatus) }` from
`execute.rs`. -/
inductive ExecutionError where
  | Io : IoErr → ExecutionError
  | Exit : ExitStatus → ExecutionError
deriving Repr, DecidableEq

/-- `assert_success` from `execute.rs`. -/
def Execute.assert_success (status : ExitStatus) : Except ExecutionError Unit :=
  match status.success with
  | true => Except.ok ()
  | false => Except.error (ExecutionError.Exit status)

/-- `Execute::capture_nothing` for `process::Command`:
`let status = self.args(args).status()?; assert_success(status)?; Ok(())`. -/
def capture_nothing (spawn : Except IoErr ExitStatus) : Except ExecutionError Unit :=
  match spawn with
  | Except.error e => Except.error (ExecutionError.Io e)
  | Except.ok status => Execute.assert_success status

/-- `Execute::capture_stdout` for `process::Command`:
`let output = self.args(args).output()?; assert_success(output.status)?;
Ok(String::from_utf8_lossy(&output.stdout).trim_end().to_string())`. -/
def capture_stdout (spawn : Except IoErr Output) : Except ExecutionError String :=
  match spawn with
  | Except.error e => Except.error (ExecutionError.Io e)
  | Except.ok output =>
    (Execute.assert_success output.status).map (fun _ => rustTrimEnd output.stdout)

/-- Modelled from the spec: "return standard output decoded as text with a
single trailing newline sequence trimmed" — remove exactly one trailing
`"\r\n"` or `"\n"` and nothing else.  Used only to compare the claim's
wording with what `capture_stdout` actually does. -/
def trimOneNewlineSuffix (s : String) : String :=
  if s.data.getLast? = some '\n' then
    if s.data.dropLast.getLast? = some '\r' then String.mk s.data.dropLast.dropLast
    else String.mk s.data.dropLast
  else s

/-- `pub enum GitError { Io(io::Error), Exit(ExitStatus) }` from `lib.rs`. -/
inductive GitError where
  | Io : IoErr → GitError
  | Exit : ExitStatus → GitError
deriving Repr, DecidableEq

/-- `assert_success` from `lib.rs`. -/
def Git.assert_success (status : ExitStatus) : Except GitError Unit :=
  match status.success with
  | true => Except.ok ()
  | false => Except.error (GitError.Exit status)

/-- `pub struct Git { program, working_dir }` — pure configuration. -/
structure Git where
  program : String
  working_dir : String

/-- `Git::new()`. -/
def Git.new : Git :=
  { program := "git", working_dir := "." }

/-- The shared plumbing of every status-returning operation of `Git`
(`fetch_prune`, `create_branch`, `delete_branch`, `push_upstream`):
`let status = Command::new(&self.program)...status()?; assert_success(status)?;
Ok(())`. -/
def Git.statusOp (spawn : Except IoErr ExitStatus) : Except GitError Unit :=
  match spawn with
  | Except.error e => Except.error (GitError.Io e)
  | Except.ok status => Git.assert_success status

/-- The shared plumbing of every output-capturing operation of `Git`
(`version`, `all_branches`, `merged_branches`, `rev_parse_head`):
`let output = Command::new(&self.program)...output()?;
assert_success(output.status)?; Ok(post(output))`. -/
def Git.outputOp {α : Type} (post : Output → α) (spawn : Except IoErr Output) :
    Except GitError α :=
  match spawn with
  | Except.error e => Except.error (GitError.Io e)
  | Except.ok output => (Git.assert_success output.status).map (fun _ => post output)

/-- `Git::version` (`["-C", dir, "--version"]`): returns the raw stdout text. -/
def Git.version (spawn : Except IoErr Output) : Except GitError String :=
  Git.outputOp (fun o => o.stdout) spawn

/-- `Git::fetch_prune` (`["-C", dir, "fetch", "--prune"]`). -/
def Git.fetch_prune (spawn : Except IoErr ExitStatus) : Except GitError Unit :=
  Git.statusOp spawn

/-- `Git::all_branches` (`["-C", dir, "branch", "-a"]`): raw stdout text. -/
def Git.all_branches (spawn : Except IoErr Output) : Except GitError String :=
  Git.outputOp (fun o => o.stdout) spawn

/-- The per-line parse used by `LocalBranches = OutputList<LocalBranch>`:
`line.parse::<LocalBranch>().ok()`. -/
def localBranchParse (line : String) : Option LocalBranch :=
  (LocalBranch.from_str line).toOption

/-- `Git::merged_branches` (`["-C", dir, "branch", "--merged", "trunk"]`):
parse stdout into the line-record collection (an infallible parse, so the
`unwrap` in the source cannot panic). -/
def Git.merged_branches (spawn : Except IoErr Output) :
    Except GitError (ListOf LocalBranch) :=
  Git.outputOp (fun o => ListOf.build localBranchParse o.stdout) spawn

/-- `Git::rev_parse_head` (`["-C", dir, "rev-parse", "--short", "HEAD"]`):
stdout with trailing whitespace trimmed (`trim_end`). -/
def Git.rev_parse_head (spawn : Except IoErr Output) : Except GitError String :=
  Git.outputOp (fun o => rustTrimEnd o.stdout) spawn

/-- `Git::create_branch` (`["-C", dir, "checkout", "-b", name]`). -/
def Git.create_branch (spawn : Except IoErr ExitStatus) : Except GitError Unit :=
  Git.statusOp spawn

/-- `Git::delete_branch` (`["-C", dir, "branch", "-d", name]`). -/
def Git.delete_branch (spawn : Except IoErr ExitStatus) : Except GitError Unit :=
  Git.statusOp spawn

/-- `Git::push_upstream` (`["-C", dir, "push", "-u", "origin", name]`). -/
def Git.push_upstream (spawn : Except IoErr ExitStatus) : Except GitError Unit :=
  Git.statusOp spawn

/-! ## The `pr-abandon` deletion loop (`src/bin/git-pr-abandon.rs`)

`main` computes the matching remote and local branches, then runs
`for branch in ... { if let Err(error) = delete(branch) { status = Some(error) } }`
over each list in turn, and exits with code 1 iff `status` is `Some` at the
end.  The deletion operations (`push_delete`, `force_delete_branch`) and the
matching sets are abstracted as parameters: the loop and exit logic is what
is embedded. -/

/-- One `for` loop of `git-pr-abandon.rs`'s `main`: attempt to delete every
branch in the list, remembering the latest error in `status`; also return the
list of branches whose deletion was attempted (each loop iteration performs
exactly one deletion call). -/
def abandonPass (del : String → Except GitError Unit) :
    List String → Option GitError → Option GitError × List String
  | [], status => (status, [])
  | b :: rest, status =>
    let status := match del b with
      | Except.error e => some e
      | Except.ok _ => status
    let next := abandonPass del rest status
    (next.1, b :: next.2)

/-- The deletion phase of `git-pr-abandon.rs`'s `main`: both loops in order,
then the process exit code (`exit(1)` iff some deletion failed, else the `Ok`
return, exit code 0). -/
def prAbandonRun (delRemote delLocal : String → Except GitError Unit)
    (remotes locals : List String) : Nat × List String :=
  let first := abandonPass delRemote remotes none
  let second := abandonPass delLocal locals first.1
  (if second.1.isSome then 1 else 0, first.2 ++ second.2)

/-! ## Supporting list lemmas -/

/-- `takeWhile` walks through a first block that satisfies the predicate. -/
theorem takeWhile_append_of_all {α : Type} (p : α → Bool) :
    ∀ (l₁ l₂ : List α), (∀ a ∈ l₁, p a = true) →
      (l₁ ++ l₂).takeWhile p = l₁ ++ l₂.takeWhile p := by
  intro l₁
  induction l₁ with
  | nil => intro l₂ _; rfl
  | cons a l ih =>
    intro l₂ hall
    have ha : p a = true := hall a (List.mem_cons_self a l)
    have hl : ∀ b ∈ l, p b = true := fun b hb => hall b (List.mem_cons_of_mem a hb)
    simp [List.takeWhile_cons_of_pos ha, ih l₂ hl]

/-- The head of `dropWhile p l`, when present, fails `p`. -/
theorem head_of_dropWhile_fails {α : Type} (p : α → Bool) :
    ∀ (l : List α) (a : α), (l.dropWhile p).head? = some a → p a = false := by
  intro l
  induction l with
  | nil => intro a h; simp at h
  | cons b l ih =>
    intro a h
    by_cases hb : p b = true
    · rw [List.dropWhile_cons_of_pos hb] at h
      exact ih a h
    · rw [List.dropWhile_cons_of_neg hb] at h
      simp at h
      subst h
      exact Bool.eq_false_iff.mpr hb

/-- Dropping the length of the maximal `p`-prefix is the same as
`dropWhile p`. -/
theorem drop_takeWhile_length {α : Type} (p : α → Bool) (l : List α) :
    l.drop (l.takeWhile p).length = l.dropWhile p := by
  have h := List.drop_left (l.takeWhile p) (l.dropWhile p)
  rw [List.takeWhile_append_dropWhile] at h
  exact h

/-- The heart of claim C1: a regex of the shape `/X+$`, where the class `X`
excludes `'/'`, matches (equivalently: the maximal `X`-suffix is non-empty
and preceded by `'/'`) iff the string contains a `'/'` and the final
`/`-separated segment is non-empty and all-`X`.  Stated on the reversed
character list `r`. -/
theorem hexSuffixMatch_iff_lastSegment (p : Char → Bool) (hp : p '/' = false)
    (r : List Char) :
    (r.takeWhile p ≠ [] ∧ (r.drop (r.takeWhile p).length).head? = some '/')
    ↔ ('/' ∈ r ∧ r.takeWhile (fun c => decide (c ≠ '/')) ≠ [] ∧
        ∀ c ∈ r.takeWhile (fun c => decide (c ≠ '/')), p c = true) := by
  constructor
  · rintro ⟨hne, hhead⟩
    rw [drop_takeWhile_length] at hhead
    obtain ⟨d, hd⟩ : ∃ d, r.dropWhile p = '/' :: d := by
      cases hdw : r.dropWhile p with
      | nil => rw [hdw] at hhead; simp at hhead
      | cons c₀ d =>
        rw [hdw] at hhead
        simp at hhead
        exact ⟨d, by rw [hhead]⟩
    have hrEq : r = r.takeWhile p ++ '/' :: d := by
      conv_lhs => rw [← List.takeWhile_append_dropWhile p r]
      rw [hd]
    have hallp : ∀ c ∈ r.takeWhile p, p c = true :=
      fun c hc => List.mem_takeWhile_imp hc
    have hallq : ∀ c ∈ r.takeWhile p, (fun c => decide (c ≠ '/')) c = true := by
      intro c hc
      have hpc := hallp c hc
      simp only [decide_eq_true_iff]
      intro hcs
      rw [hcs, hp] at hpc
      exact Bool.false_ne_true hpc
    have htq : r.takeWhile (fun c => decide (c ≠ '/')) = r.takeWhile p := by
      conv_lhs => rw [hrEq]
      rw [takeWhile_append_of_all _ _ _ hallq]
      simp
    refine ⟨?_, ?_, ?_⟩
    · rw [hrEq]
      exact List.mem_append_right _ (List.mem_cons_self _ _)
    · rw [htq]; exact hne
    · rw [htq]; exact hallp
  · rintro ⟨hmem, hne, hall⟩
    have hsplit := List.takeWhile_append_dropWhile (fun c => decide (c ≠ '/')) r
    have hmem' : '/' ∈ r.dropWhile (fun c => decide (c ≠ '/')) := by
      rcases List.mem_append.mp (by rw [hsplit]; exact hmem) with h1 | h2
      · have := List.mem_takeWhile_imp h1
        simp at this
      · exact h2
    obtain ⟨c₀, d, hd⟩ : ∃ c₀ d, r.dropWhile (fun c => decide (c ≠ '/')) = c₀ :: d := by
      cases hdw : r.dropWhile (fun c => decide (c ≠ '/')) with
      | nil => rw [hdw] at hmem'; simp at hmem'
      | cons c₀ d => exact ⟨c₀, d, rfl⟩
    have hc₀ : c₀ = '/' := by
      have := head_of_dropWhile_fails (fun c => decide (c ≠ '/')) r c₀ (by rw [hd]; rfl)
      simpa using this
    have hrEq : r = r.takeWhile (fun c => decide (c ≠ '/')) ++ '/' :: d := by
      conv_lhs => rw [← hsplit]
      rw [hd, hc₀]
    have htp : r.takeWhile p = r.takeWhile (fun c => decide (c ≠ '/')) := by
      conv_lhs => rw [hrEq]
      rw [takeWhile_append_of_all _ _ _ hall]
      simp [List.takeWhile_cons, hp]
    constructor
    · rw [htp]; exact hne
    · rw [drop_takeWhile_length]
      have : r.dropWhile p = '/' :: d := by
        have h2 := List.drop_left (r.takeWhile (fun c => decide (c ≠ '/'))) ('/' :: d)
        rw [← hrEq] at h2
        rw [← drop_takeWhile_length p r, htp]
        exact h2
      rw [this]
      rfl

/-- Pushing a `filter` after a `map` back through the `map`, fusing it with a
`filter` done before the `map`. -/
theorem filter_map_filter_fuse {α β : Type} (f : α → β) (p : α → Bool) (q : β → Bool) :
    ∀ l : List α, ((l.filter p).map f).filter q = (l.filter (fun a => p a && q (f a))).map f := by
  intro l
  induction l with
  | nil => rfl
  | cons a l ih =>
    by_cases hp : p a = true <;> by_cases hq : q (f a) = true <;>
      simp [List.filter_cons, hp, hq, ih]

/-- A line matched by the prefix regex starts with a space or a star. -/
theorem beginsWithRemoteRef_head (l : List Char) (h : beginsWithRemoteRef l = true) :
    l.head? = some ' ' ∨ l.head? = some '*' := by
  cases l with
  | nil => simp [beginsWithRemoteRef] at h
  | cons c rest =>
    by_cases hsp : c = ' '
    · exact Or.inl (by rw [hsp]; rfl)
    · by_cases hstar : c = '*'
      · exact Or.inr (by rw [hstar]; rfl)
      · exfalso
        unfold beginsWithRemoteRef at h
        rw [List.dropWhile_cons_of_neg (by simpa using hsp)] at h
        rw [if_neg (by simp [hstar])] at h
        simp [hsp] at h

/-! ## Claim theorems -/

/-- C1 (counterexample): the claim's iff fails at `"pr/٣"` (U+0663,
ARABIC-INDIC DIGIT THREE).  The regex `\d` of the Rust `regex` crate is the
Unicode class `\p{Nd}`, so `looks_like_pr` accepts this branch name, while
the final segment does not consist of the characters `0-9a-f`. -/
theorem branch_name_looks_like_pr_unicode_digit_cex :
    (BranchName.mk "pr/٣").looks_like_pr = true ∧
    prFinalSegmentLowerHex "pr/٣" = false ∧
    ¬ ((BranchName.mk "pr/٣").looks_like_pr = true ↔ prFinalSegmentLowerHex "pr/٣" = true) := by
  refine ⟨by decide, by decide, ?_⟩
  intro h
  exact absurd (h.mp (by decide)) (by decide)

/-- C1 (amended): parsing any string into a `BranchName` succeeds, and
`looks_like_pr` is true iff the string contains a `'/'` and its final
`/`-separated segment is non-empty and consists only of characters matched
by `[a-f\d]` — lowercase `a`–`f` or a Unicode decimal digit (`\p{Nd}`, which
includes `0`–`9`). -/
theorem branch_name_looks_like_pr_spec :
    (∀ s : String, BranchName.from_str s = Except.ok { value := s }) ∧
    (∀ s : String, (BranchName.mk s).looks_like_pr = prFinalSegmentRegexHex s) := by
  refine ⟨fun s => rfl, fun s => ?_⟩
  have key := hexSuffixMatch_iff_lastSegment isRegexHexDigit (by decide) s.data.reverse
  apply Bool.coe_iff_coe.mp
  unfold BranchName.looks_like_pr endsWithHexMatch prFinalSegmentRegexHex lastSegment
  simp only [Bool.and_eq_true, decide_eq_true_eq, List.all_eq_true, List.mem_reverse,
    ne_eq, List.reverse_eq_nil_iff] at key ⊢
  tauto

/-- C2 (counterexample): `extract_pr_names` does not recognize branches on
the remote `yabba-dabba-doo` (or `yabba`): its prefix regex hard-codes
`remotes/origin/`. -/
theorem extract_pr_names_non_origin_cex :
    ¬ ("first-pr" ∈ extract_pr_names "remotes/yabba-dabba-doo/first-pr/0") ∧
    ¬ ("first-pr" ∈ extract_pr_names "  remotes/yabba-dabba-doo/first-pr/0") ∧
    ¬ ("dabba/doo/third" ∈ extract_pr_names "remotes/yabba/dabba/doo/third/0") ∧
    ¬ ("dabba/doo/third" ∈ extract_pr_names "  remotes/yabba/dabba/doo/third/0") := by
  decide

/-- C2 (amended): `extract_pr_names` only recognizes the `origin` remote;
lines referencing any other remote — indented or not — contribute no PR
name at all. -/
theorem extract_pr_names_non_origin_empty :
    extract_pr_names "remotes/yabba-dabba-doo/first-pr/0" = [] ∧
    extract_pr_names "  remotes/yabba-dabba-doo/first-pr/0" = [] ∧
    extract_pr_names "remotes/yabba/dabba/doo/third/0" = [] ∧
    extract_pr_names "  remotes/yabba/dabba/doo/third/0" = [] := by
  decide

/-- C3: on the six-line example listing, `extract_pr_names` returns exactly
`["first-pr", "second"]`, in input order, with the remote-reference prefix
and the trailing hex suffix stripped. -/
theorem extract_pr_names_example_listing :
    extract_pr_names
        ("  local-junk\n* stuff/I/wrote\n  trunk\n  remotes/origin/first-pr/000000\n  remotes/origin/second/f3f3f3\n  remotes/origin/not-being-tracked")
      = ["first-pr", "second"] := by
  decide

/-- C4: `extract_deletable_branches` on the example listing yields
`["one", "three"]`; in general it returns, in input order, the trim of every
line that does not start with `'*'` and whose trimmed content is not
`"trunk"`. -/
theorem extract_deletable_branches_spec :
    extract_deletable_branches "  one\n* two\n  trunk\n  three\n" = ["one", "three"] ∧
    ∀ s : String, extract_deletable_branches s =
      ((rustLines s).filter (fun b => decide (b.data.head? ≠ some '*') &&
          decide (rustTrimEnd (rustTrimStart b) ≠ "trunk"))).map
        (fun b => rustTrimEnd (rustTrimStart b)) := by
  refine ⟨by decide, fun s => ?_⟩
  unfold extract_deletable_branches
  rw [List.map_map]
  exact filter_map_filter_fuse _ _ _ _

/-- C10: the prefix regex `^ *\** remotes/origin/` demands a space or star
before `remotes/origin/` (its mandatory literal space), so a matched line
starts with `' '` or `'*'`; in particular a line that starts directly with
`remotes/origin/` is never matched, and the unindented line
`remotes/origin/feature/abc123` yields no PR name. -/
theorem extract_pr_names_requires_indent :
    (∀ l : List Char, beginsWithRemoteRef l = true →
      l.head? = some ' ' ∨ l.head? = some '*') ∧
    (∀ l : List Char, remoteRefLit <+: l → beginsWithRemoteRef l = false) ∧
    extract_pr_names "remotes/origin/feature/abc123" = [] := by
  refine ⟨beginsWithRemoteRef_head, fun l hpre => ?_, by decide⟩
  cases hb : beginsWithRemoteRef l with
  | false => rfl
  | true =>
    exfalso
    obtain ⟨t, rfl⟩ := hpre
    have hhead : (remoteRefLit ++ t).head? = some 'r' := rfl
    rcases beginsWithRemoteRef_head _ hb with h | h <;> rw [hhead] at h <;> simp at h

/-- Witness for C10: the theorem applied to the concrete unindented line. -/
theorem extract_pr_names_requires_indent_witness :
    beginsWithRemoteRef ("remotes/origin/feature/abc123".data) = false :=
  extract_pr_names_requires_indent.2.1 _ ⟨"feature/abc123".data, rfl⟩

/-- C5 (counterexample): `is_head` is not equivalent to the line beginning
with a `'*'` character — the line `"*x"` begins with `'*'` yet parses with
`is_head = false`, because its first whitespace token is `"*x"`, not the
exact marker `"*"`. -/
theorem local_branch_is_head_marker_cex :
    ¬ (∀ (line : String) (lb : LocalBranch), LocalBranch.from_str line = Except.ok lb →
        (lb.is_head = true ↔ line.data.head? = some '*')) := by
  intro h
  have hx := h "*x" (LocalBranch.new false "*x") rfl
  exact Bool.false_ne_true (hx.mpr rfl)

/-- The four defining cases of `LocalBranch::from_str`, as standalone
equations (proved once, used to assemble the claim theorem). -/
theorem lb_parse_nil (line : String) (h : splitWhitespace line.data = []) :
    LocalBranch.from_str line = Except.error ParseError.MissingName := by
  unfold LocalBranch.from_str
  rw [h]

/-- `LocalBranch::from_str` on a lone `"*"` token: missing name. -/
theorem lb_parse_star_only (line : String) (h : splitWhitespace line.data = [['*']]) :
    LocalBranch.from_str line = Except.error ParseError.MissingName := by
  unfold LocalBranch.from_str
  rw [h]
  rfl

/-- `LocalBranch::from_str` on a `"*"` marker followed by a name. -/
theorem lb_parse_star (line : String) (name : List Char) (rest : List (List Char))
    (h : splitWhitespace line.data = ['*'] :: name :: rest) :
    LocalBranch.from_str line = Except.ok (LocalBranch.new true (String.mk name)) := by
  unfold LocalBranch.from_str
  rw [h]
  rfl

/-- `LocalBranch::from_str` on a first token other than `"*"`. -/
theorem lb_parse_other (line : String) (first : List Char) (rest : List (List Char))
    (h : splitWhitespace line.data = first :: rest) (hne : first ≠ ['*']) :
    LocalBranch.from_str line = Except.ok (LocalBranch.new false (String.mk first)) := by
  unfold LocalBranch.from_str
  rw [h]
  simp [hne]

/-- C5 (amended): one line of branch-listing output is tokenized on
whitespace; no token is the missing-name error; a first token `"*"` with no
second token is also the missing-name error; a first token `"*"` makes the
second token the name with `is_head = true`; any other first token is the
name with `is_head = false`.  Consequently, for every successfully parsed
line, `is_head` is true iff the line's first whitespace-delimited token is
exactly `"*"`. -/
theorem local_branch_parse_spec :
    (∀ line : String, splitWhitespace line.data = [] →
      LocalBranch.from_str line = Except.error ParseError.MissingName) ∧
    (∀ line : String, splitWhitespace line.data = [['*']] →
      LocalBranch.from_str line = Except.error ParseError.MissingName) ∧
    (∀ (line : String) (name : List Char) (rest : List (List Char)),
      splitWhitespace line.data = ['*'] :: name :: rest →
      LocalBranch.from_str line = Except.ok (LocalBranch.new true (String.mk name))) ∧
    (∀ (line : String) (first : List Char) (rest : List (List Char)),
      splitWhitespace line.data = first :: rest → first ≠ ['*'] →
      LocalBranch.from_str line = Except.ok (LocalBranch.new false (String.mk first))) ∧
    (∀ (line : String) (lb : LocalBranch), LocalBranch.from_str line = Except.ok lb →
      (lb.is_head = true ↔ (splitWhitespace line.data).head? = some ['*'])) := by
  refine ⟨lb_parse_nil, lb_parse_star_only, lb_parse_star, lb_parse_other, ?_⟩
  intro line lb h
  cases hs : splitWhitespace line.data with
  | nil => rw [lb_parse_nil line hs] at h; exact absurd h (by simp)
  | cons first rest =>
    by_cases hf : first = ['*']
    · subst hf
      cases rest with
      | nil => rw [lb_parse_star_only line hs] at h; exact absurd h (by simp)
      | cons name more =>
        rw [lb_parse_star line name more hs] at h
        have hlb : LocalBranch.new true (String.mk name) = lb := by
          exact Except.ok.inj h
        rw [← hlb]
        simp [LocalBranch.new]
    · rw [lb_parse_other line first rest hs hf] at h
      have hlb : LocalBranch.new false (String.mk first) = lb := by
        exact Except.ok.inj h
      rw [← hlb]
      simp [LocalBranch.new, hf]

/-- Witness for C5: the theorem's parse-rule cases applied to the concrete
lines `"* trunk"` and `"  other/branch/123abc"`. -/
theorem local_branch_parse_spec_witness :
    LocalBranch.from_str "* trunk" = Except.ok (LocalBranch.new true (String.mk "trunk".data)) ∧
    LocalBranch.from_str "  other/branch/123abc" =
      Except.ok (LocalBranch.new false (String.mk "other/branch/123abc".data)) :=
  ⟨local_branch_parse_spec.2.2.1 "* trunk" "trunk".data [] (by decide),
   local_branch_parse_spec.2.2.2.1 "  other/branch/123abc" "other/branch/123abc".data []
     (by decide) (by decide)⟩

/-- Draining a `ListOf` by repeated `next` (popping the last stored element)
yields the reverse of its storage, given enough fuel. -/
theorem drainAux_reverse {T : Type} :
    ∀ (n : Nat) (st : List T), st.length ≤ n → ListOf.drainAux n ⟨st⟩ = st.reverse := by
  intro n
  induction n with
  | zero =>
    intro st h
    have hnil : st = [] := List.eq_nil_of_length_eq_zero (Nat.le_zero.mp h)
    subst hnil
    rfl
  | succ n ih =>
    intro st h
    rcases List.eq_nil_or_concat' st with rfl | ⟨l, a, rfl⟩
    · rfl
    · have hg : (l ++ [a]).getLast? = some a := List.getLast?_concat l
      have hd : (l ++ [a]).dropLast = l := List.dropLast_concat
      have hstep : ListOf.drainAux (n + 1) (⟨l ++ [a]⟩ : ListOf T) =
          a :: ListOf.drainAux n ⟨l⟩ := by
        simp only [ListOf.drainAux, ListOf.next, hg, hd]
      have hlen : l.length ≤ n := by
        have := h
        simp [List.length_append] at this
        omega
      rw [hstep, ih l hlen, List.reverse_concat]

/-- C6: building a `ListOf T` from text never fails (the error type is
`Infallible`), and iterating the collection yields exactly the lines that
parse successfully, in the original line order. -/
theorem list_of_collects_successes_in_order :
    ∀ (T : Type) (parse : String → Option T) (s : String),
      ∃ l : ListOf T, ListOf.from_str parse s = Except.ok l ∧
        ListOf.drain l = (rustLines s).filterMap parse := by
  intro T parse s
  refine ⟨ListOf.build parse s, rfl, ?_⟩
  unfold ListOf.drain ListOf.build
  rw [drainAux_reverse _ _ (Nat.le_refl _), List.reverse_reverse]

/-- C7 (counterexample): `capture_stdout` does not trim exactly one trailing
newline sequence — on stdout `"a \n"` it returns `"a"`, dropping the
trailing space as well, while trimming one newline sequence would return
`"a "`. -/
theorem capture_stdout_single_newline_cex :
    capture_stdout (Except.ok { status := { code := 0 }, stdout := "a \n" }) =
        Except.ok "a" ∧
    trimOneNewlineSuffix "a \n" = "a " ∧
    ("a" : String) ≠ "a " := by
  refine ⟨rfl, rfl, by decide⟩

/-- C7 (amended): on a successful exit, `capture_stdout` returns stdout with
its maximal run of trailing whitespace removed: the result is a prefix of
stdout, the removed suffix is all whitespace, and the result does not itself
end in whitespace (so leading and interior characters are untouched). -/
theorem capture_stdout_trims_trailing_whitespace :
    ∀ o : Output, o.status.code = 0 →
      capture_stdout (Except.ok o) = Except.ok (rustTrimEnd o.stdout) ∧
      (∃ w : List Char, o.stdout.data = (rustTrimEnd o.stdout).data ++ w ∧
        ∀ c ∈ w, isRustWhitespace c = true) ∧
      (∀ c : Char, (rustTrimEnd o.stdout).data.getLast? = some c →
        isRustWhitespace c = false) := by
  intro o h
  refine ⟨?_, ?_, ?_⟩
  · simp [capture_stdout, Execute.assert_success, ExitStatus.success, h, Except.map]
  · refine ⟨(o.stdout.data.reverse.takeWhile isRustWhitespace).reverse, ?_, ?_⟩
    · show o.stdout.data = trimEndL o.stdout.data ++ _
      unfold trimEndL
      rw [← List.reverse_append, List.takeWhile_append_dropWhile, List.reverse_reverse]
    · intro c hc
      rw [List.mem_reverse] at hc
      exact List.mem_takeWhile_imp hc
  · intro c hc
    have hc' : ((o.stdout.data.reverse.dropWhile isRustWhitespace).reverse).getLast? =
        some c := hc
    rw [List.getLast?_reverse] at hc'
    exact head_of_dropWhile_fails isRustWhitespace _ c hc'

/-- Witness for C7: the theorem at the concrete output `"a \n"` with exit
code 0. -/
theorem capture_stdout_trims_trailing_whitespace_witness :
    capture_stdout (Except.ok { status := { code := 0 }, stdout := "a \n" }) =
        Except.ok (rustTrimEnd "a \n") ∧
    (∃ w : List Char, ("a \n" : String).data = (rustTrimEnd "a \n").data ++ w ∧
      ∀ c ∈ w, isRustWhitespace c = true) ∧
    (∀ c : Char, (rustTrimEnd "a \n").data.getLast? = some c →
      isRustWhitespace c = false) :=
  capture_stdout_trims_trailing_whitespace { status := { code := 0 }, stdout := "a \n" } rfl

/-- Contract of `capture_nothing` over the three spawn outcomes. -/
theorem capture_nothing_contract (r : Except IoErr ExitStatus) :
    (capture_nothing r = Except.ok () ↔ ∃ st, r = Except.ok st ∧ st.code = 0) ∧
    (∀ e, capture_nothing r = Except.error (ExecutionError.Io e) ↔ r = Except.error e) ∧
    (∀ st, capture_nothing r = Except.error (ExecutionError.Exit st) ↔
      r = Except.ok st ∧ st.code ≠ 0) := by
  refine ⟨?_, fun e => ?_, fun st => ?_⟩ <;>
    cases r with
    | error e₀ => simp [capture_nothing]
    | ok v =>
      by_cases hc : v.code = 0 <;>
        simp [capture_nothing, Execute.assert_success, ExitStatus.success, hc] <;>
        try (intro h; simp [← h, hc])

/-- Contract of `capture_stdout` over the three spawn outcomes. -/
theorem capture_stdout_contract (r : Except IoErr Output) :
    (∀ s, capture_stdout r = Except.ok s ↔
      ∃ o, r = Except.ok o ∧ o.status.code = 0 ∧ s = rustTrimEnd o.stdout) ∧
    (∀ e, capture_stdout r = Except.error (ExecutionError.Io e) ↔ r = Except.error e) ∧
    (∀ st, capture_stdout r = Except.error (ExecutionError.Exit st) ↔
      ∃ o, r = Except.ok o ∧ o.status = st ∧ st.code ≠ 0) := by
  refine ⟨fun s => ?_, fun e => ?_, fun st => ?_⟩ <;>
    cases r with
    | error e₀ => simp [capture_stdout]
    | ok v =>
      by_cases hc : v.status.code = 0 <;>
        simp [capture_stdout, Execute.assert_success, ExitStatus.success, Except.map, hc,
          eq_comm] <;>
        try (intro h; subst h; simp [hc])

/-- Contract of the `Git` status-operation plumbing. -/
theorem git_statusOp_contract (r : Except IoErr ExitStatus) :
    (Git.statusOp r = Except.ok () ↔ ∃ st, r = Except.ok st ∧ st.code = 0) ∧
    (∀ e, Git.statusOp r = Except.error (GitError.Io e) ↔ r = Except.error e) ∧
    (∀ st, Git.statusOp r = Except.error (GitError.Exit st) ↔
      r = Except.ok st ∧ st.code ≠ 0) := by
  refine ⟨?_, fun e => ?_, fun st => ?_⟩ <;>
    cases r with
    | error e₀ => simp [Git.statusOp]
    | ok v =>
      by_cases hc : v.code = 0 <;>
        simp [Git.statusOp, Git.assert_success, ExitStatus.success, hc] <;>
        try (intro h; simp [← h, hc])

/-- Contract of the `Git` output-operation plumbing, for any
post-processing of the captured output. -/
theorem git_outputOp_contract {α : Type} (post : Output → α) (r : Except IoErr Output) :
    (∀ a, Git.outputOp post r = Except.ok a ↔
      ∃ o, r = Except.ok o ∧ o.status.code = 0 ∧ a = post o) ∧
    (∀ e, Git.outputOp post r = Except.error (GitError.Io e) ↔ r = Except.error e) ∧
    (∀ st, Git.outputOp post r = Except.error (GitError.Exit st) ↔
      ∃ o, r = Except.ok o ∧ o.status = st ∧ st.code ≠ 0) := by
  refine ⟨fun a => ?_, fun e => ?_, fun st => ?_⟩ <;>
    cases r with
    | error e₀ => simp [Git.outputOp]
    | ok v =>
      by_cases hc : v.status.code = 0 <;>
        simp [Git.outputOp, Git.assert_success, ExitStatus.success, Except.map, hc,
          eq_comm] <;>
        try (intro h; subst h; simp [hc])

/-- C8: for both executor operations and for the Git client plumbing every
operation is built on, the result is a launch (`Io`) error exactly when the
spawn failed, a non-zero-exit error carrying the observed status exactly
when the program ran and exited non-zero, and a success exactly when it
exited zero — one spawn, no retry, no swallowed failure. -/
theorem executor_and_git_error_contract :
    (∀ r : Except IoErr ExitStatus,
      (capture_nothing r = Except.ok () ↔ ∃ st, r = Except.ok st ∧ st.code = 0) ∧
      (∀ e, capture_nothing r = Except.error (ExecutionError.Io e) ↔ r = Except.error e) ∧
      (∀ st, capture_nothing r = Except.error (ExecutionError.Exit st) ↔
        r = Except.ok st ∧ st.code ≠ 0)) ∧
    (∀ r : Except IoErr Output,
      (∀ s, capture_stdout r = Except.ok s ↔
        ∃ o, r = Except.ok o ∧ o.status.code = 0 ∧ s = rustTrimEnd o.stdout) ∧
      (∀ e, capture_stdout r = Except.error (ExecutionError.Io e) ↔ r = Except.error e) ∧
      (∀ st, capture_stdout r = Except.error (ExecutionError.Exit st) ↔
        ∃ o, r = Except.ok o ∧ o.status = st ∧ st.code ≠ 0)) ∧
    (∀ r : Except IoErr ExitStatus,
      Git.fetch_prune r = Git.statusOp r ∧ Git.create_branch r = Git.statusOp r ∧
      Git.delete_branch r = Git.statusOp r ∧ Git.push_upstream r = Git.statusOp r ∧
      (Git.statusOp r = Except.ok () ↔ ∃ st, r = Except.ok st ∧ st.code = 0) ∧
      (∀ e, Git.statusOp r = Except.error (GitError.Io e) ↔ r = Except.error e) ∧
      (∀ st, Git.statusOp r = Except.error (GitError.Exit st) ↔
        r = Except.ok st ∧ st.code ≠ 0)) ∧
    (∀ r : Except IoErr Output,
      Git.version r = Git.outputOp (fun o => o.stdout) r ∧
      Git.all_branches r = Git.outputOp (fun o => o.stdout) r ∧
      Git.rev_parse_head r = Git.outputOp (fun o => rustTrimEnd o.stdout) r ∧
      Git.merged_branches r =
        Git.outputOp (fun o => ListOf.build localBranchParse o.stdout) r) ∧
    (∀ (α : Type) (post : Output → α) (r : Except IoErr Output),
      (∀ a, Git.outputOp post r = Except.ok a ↔
        ∃ o, r = Except.ok o ∧ o.status.code = 0 ∧ a = post o) ∧
      (∀ e, Git.outputOp post r = Except.error (GitError.Io e) ↔ r = Except.error e) ∧
      (∀ st, Git.outputOp post r = Except.error (GitError.Exit st) ↔
        ∃ o, r = Except.ok o ∧ o.status = st ∧ st.code ≠ 0)) :=
  ⟨capture_nothing_contract, capture_stdout_contract,
   fun r => ⟨rfl, rfl, rfl, rfl, (git_statusOp_contract r).1,
     (git_statusOp_contract r).2.1, (git_statusOp_contract r).2.2⟩,
   fun _ => ⟨rfl, rfl, rfl, rfl⟩,
   fun _ post r => git_outputOp_contract post r⟩

/-- Each loop of `git-pr-abandon.rs` attempts the deletion of every branch
in its list, regardless of failures. -/
theorem abandonPass_attempts (del : String → Except GitError Unit) :
    ∀ (bs : List String) (st : Option GitError), (abandonPass del bs st).2 = bs := by
  intro bs
  induction bs with
  | nil => intro st; rfl
  | cons b rest ih =>
    intro st
    unfold abandonPass
    cases del b <;> simp [ih]

/-- The status accumulator of a loop of `git-pr-abandon.rs` ends up `some`
iff it started `some` or some deletion in the list failed. -/
theorem abandonPass_failed (del : String → Except GitError Unit) :
    ∀ (bs : List String) (st : Option GitError),
      (abandonPass del bs st).1.isSome = true ↔
        (st.isSome = true ∨ ∃ b ∈ bs, ∃ e, del b = Except.error e) := by
  intro bs
  induction bs with
  | nil => intro st; simp [abandonPass]
  | cons b rest ih =>
    intro st
    unfold abandonPass
    cases hdb : del b with
    | error e => simp [ih, hdb]
    | ok u => simp [ih, hdb]

/-- C9: the `pr-abandon` deletion phase attempts every matching remote and
local branch even when earlier deletions fail, and the process exit code is
1 iff at least one deletion failed (0 otherwise). -/
theorem pr_abandon_attempts_all_and_exit_code :
    ∀ (delRemote delLocal : String → Except GitError Unit) (remotes locals : List String),
      (prAbandonRun delRemote delLocal remotes locals).2 = remotes ++ locals ∧
      ((prAbandonRun delRemote delLocal remotes locals).1 = 1 ↔
        ((∃ b ∈ remotes, ∃ e, delRemote b = Except.error e) ∨
         (∃ b ∈ locals, ∃ e, delLocal b = Except.error e))) ∧
      ((prAbandonRun delRemote delLocal remotes locals).1 = 0 ↔
        ¬ ((∃ b ∈ remotes, ∃ e, delRemote b = Except.error e) ∨
           (∃ b ∈ locals, ∃ e, delLocal b = Except.error e))) := by
  intro delRemote delLocal remotes locals
  have hsome :
      (abandonPass delLocal locals (abandonPass delRemote remotes none).1).1.isSome = true ↔
        ((∃ b ∈ remotes, ∃ e, delRemote b = Except.error e) ∨
         (∃ b ∈ locals, ∃ e, delLocal b = Except.error e)) := by
    rw [abandonPass_failed, abandonPass_failed]
    simp [or_comm]
  refine ⟨?_, ?_, ?_⟩
  · show _ ++ (abandonPass delLocal locals _).2 = remotes ++ locals
    rw [abandonPass_attempts, abandonPass_attempts]
  · show (if (abandonPass delLocal locals _).1.isSome then 1 else 0) = 1 ↔ _
    rw [← hsome]
    by_cases h : (abandonPass delLocal locals (abandonPass delRemote remotes none).1).1.isSome
      <;> simp [h]
  · show (if (abandonPass delLocal locals _).1.isSome then 1 else 0) = 0 ↔ _
    rw [← hsome]
    by_cases h : (abandonPass delLocal locals (abandonPass delRemote remotes none).1).1.isSome
      <;> simp [h]
